import Mathlib

/-!
Verification of the multi-armed-bandit model-selection core
(`river/expert/bandit.py`: `Bandit`, `EpsilonGreedyBandit`, `UCBBandit`).

Shallow embedding conventions:
* Python floats are modelled as `ℚ` (exact field arithmetic).
* External numpy math functions (`np.sqrt`, `np.log`, `np.exp`) are opaque
  function parameters of the definitions that use them.
* Randomness (`np.random.rand`, `np.random.choice`) is injected explicitly:
  a rational draw `u ∈ [0,1)` and a natural-number pick used as an index.
* Python exceptions are modelled with `Except PyError`; the spec's single
  `ConfigurationError` category covers both `ValueError` and `TypeError`
  raised by the code.
-/

namespace River

/-- Python exceptions raised by the bandit module: `ValueError` in the
constructors, `TypeError` in `add_models`. -/
inductive PyError where
  | valueError
  | typeError
deriving DecidableEq, Repr

/-! ## Per-arm statistics (`Bandit.learn_one`, lines 94-96)

The code keeps, per arm, a pull count `_N[arm]` and a running mean
`_average_reward[arm]`, updated by
`_N[arm] += 1; _average_reward[arm] += (1.0/_N[arm]) * (reward - _average_reward[arm])`.
-/

/-- Statistics of a single arm: pull count and running average reward. -/
structure ArmStat where
  pullCount : ℕ
  averageReward : ℚ
deriving DecidableEq, Repr

/-- One reward record for an arm, exactly as `learn_one` updates the chosen
arm: the pull count is incremented first, then the running mean is moved by
`(1/pullCount) * (reward - avg)` with the incremented count. -/
def ArmStat.record (st : ArmStat) (reward : ℚ) : ArmStat :=
  let n := st.pullCount + 1
  { pullCount := n
    averageReward := st.averageReward + (1 / (n : ℚ)) * (reward - st.averageReward) }

/-- Folding a whole sequence of rewards into an arm's statistics. -/
def ArmStat.recordAll (st : ArmStat) (rs : List ℚ) : ArmStat :=
  rs.foldl ArmStat.record st

/-- A fresh arm starts with zero pulls and zero average reward
(`np.zeros` initialisation in `Bandit.__init__`). -/
def ArmStat.init : ArmStat := ⟨0, 0⟩

lemma ArmStat.recordAll_pullCount (st : ArmStat) (rs : List ℚ) :
    (st.recordAll rs).pullCount = st.pullCount + rs.length := by
  induction rs generalizing st with
  | nil => simp [ArmStat.recordAll]
  | cons r rest ih =>
      simp only [ArmStat.recordAll, List.foldl_cons] at *
      rw [ih]
      simp [ArmStat.record]
      omega

lemma ArmStat.recordAll_avg (rs : List ℚ) :
    ∀ (n : ℕ) (a : ℚ), 0 < n + rs.length →
      (ArmStat.recordAll ⟨n, a⟩ rs).averageReward
        = ((n : ℚ) * a + rs.sum) / ((n : ℚ) + rs.length) := by
  induction rs with
  | nil =>
      intro n a hn
      have hn0 : 0 < n := by simpa using hn
      have hn' : (n : ℚ) ≠ 0 := Nat.cast_ne_zero.mpr hn0.ne'
      simp only [ArmStat.recordAll, List.foldl_nil, List.sum_nil, List.length_nil,
        Nat.cast_zero, add_zero]
      rw [eq_div_iff hn']
      ring
  | cons r rest ih =>
      intro n a _
      have hstep : ArmStat.record ⟨n, a⟩ r
          = ⟨n + 1, a + (1 / ((n : ℚ) + 1)) * (r - a)⟩ := by
        simp [ArmStat.record]
      have hpos : 0 < (n + 1) + rest.length := by omega
      have hrec := ih (n + 1) (a + (1 / ((n : ℚ) + 1)) * (r - a)) hpos
      have hpos1 : (0 : ℚ) < (n : ℚ) + 1 := by positivity
      have hne : ((n : ℚ) + 1) ≠ 0 := hpos1.ne'
      simp only [ArmStat.recordAll, List.foldl_cons] at *
      rw [hstep, hrec]
      have hne2 : ((n : ℚ) + 1 + (rest.length : ℚ)) ≠ 0 := by positivity
      have hne3 : ((n : ℚ) + ((rest.length : ℚ) + 1)) ≠ 0 := by positivity
      push_cast
      field_simp
      ring

/-! ## First-index argmax (`np.argmax`)

`np.argmax` scans left to right and returns the index of the first
occurrence of the maximum. -/

/-- Index of the first maximal element of a list, as `np.argmax` computes it
(`0` on the empty list, on which numpy raises instead). -/
def argmaxQ : List ℚ → ℕ
  | [] => 0
  | [_] => 0
  | x :: y :: l =>
      if x < (y :: l).getD (argmaxQ (y :: l)) 0 then argmaxQ (y :: l) + 1 else 0

/-- The index `i` is the first position of the maximum of `l`. -/
def IsFirstMax (l : List ℚ) (i : ℕ) : Prop :=
  i < l.length ∧ (∀ j, j < l.length → l.getD j 0 ≤ l.getD i 0) ∧
    (∀ j, j < i → l.getD j 0 < l.getD i 0)

instance (l : List ℚ) (i : ℕ) : Decidable (IsFirstMax l i) := by
  unfold IsFirstMax
  infer_instance

lemma argmaxQ_isFirstMax : ∀ (l : List ℚ), l ≠ [] → IsFirstMax l (argmaxQ l) := by
  intro l
  induction l with
  | nil => intro h; exact absurd rfl h
  | cons x t ih =>
      intro _
      cases t with
      | nil =>
          refine ⟨by simp [argmaxQ], ?_, ?_⟩
          · intro j hj
            simp only [List.length_cons, List.length_nil] at hj
            have hj0 : j = 0 := by omega
            subst hj0
            simp [argmaxQ]
          · intro j hj
            simp [argmaxQ] at hj
      | cons y l =>
          obtain ⟨hlen, hmax, hfirst⟩ := ih (by simp)
          by_cases hc : x < (y :: l).getD (argmaxQ (y :: l)) 0
          · have hres : argmaxQ (x :: y :: l) = argmaxQ (y :: l) + 1 := by
              rw [argmaxQ, if_pos hc]
            refine ⟨?_, ?_, ?_⟩
            · rw [hres]; simpa using hlen
            · intro j hj
              rw [hres]
              cases j with
              | zero => simpa using le_of_lt hc
              | succ k =>
                  simp only [List.getD_cons_succ]
                  exact hmax k (by simpa using hj)
            · intro j hj
              rw [hres] at hj ⊢
              cases j with
              | zero => simpa using hc
              | succ k =>
                  simp only [List.getD_cons_succ]
                  exact hfirst k (by omega)
          · have hres : argmaxQ (x :: y :: l) = 0 := by
              rw [argmaxQ, if_neg hc]
            push_neg at hc
            refine ⟨by simp [hres], ?_, ?_⟩
            · intro j hj
              rw [hres]
              cases j with
              | zero => simp
              | succ k =>
                  simp only [List.getD_cons_succ, List.getD_cons_zero]
                  exact le_trans (hmax k (by simpa using hj)) hc
            · intro j hj
              rw [hres] at hj
              omega

/-! ## Claim C1: the running average is the arithmetic mean -/

/-- Claim C1: for every arm and every finite sequence of rewards recorded via
the coordinator's update step (`learn_one`, lines 93-96), after `n` updates the
arm's `average_reward` equals the arithmetic mean of those `n` reward values,
with `pull_count` incremented first and then `avg += (reward - avg) / pull_count`.
(For `n = 0` both sides are `0` since `ℚ` division by zero is zero.) -/
theorem arm_average_reward_is_mean (rs : List ℚ) :
    (ArmStat.init.recordAll rs).averageReward = rs.sum / rs.length ∧
    (ArmStat.init.recordAll rs).pullCount = rs.length := by
  constructor
  · cases rs with
    | nil => simp [ArmStat.recordAll, ArmStat.init]
    | cons r rest =>
        have h := ArmStat.recordAll_avg (r :: rest) 0 0 (by simp)
        simpa [ArmStat.init] using h
  · simpa [ArmStat.init] using ArmStat.recordAll_pullCount ArmStat.init rs

/-! ## Epsilon-greedy arm selection (`EpsilonGreedyBandit._pull_arm`, lines 155-161)

The code draws `u = np.random.rand()` (uniform on `[0, 1)`, so `u = 0` is a
possible draw) and exploits iff `u > epsilon`; otherwise it returns
`np.random.choice(n_arms)`, modelled as an injected arm index. -/

/-- `EpsilonGreedyBandit._pull_arm`: exploit (first-index argmax of the average
rewards) when the uniform draw `u` exceeds `epsilon`, else return the injected
uniformly-random arm. -/
def egPullArm (epsilon : ℚ) (averageReward : List ℚ) (u : ℚ) (randArm : ℕ) : ℕ :=
  if epsilon < u then argmaxQ averageReward else randArm

/-- Claim C3 is false as stated: with `epsilon = 0` the result still depends on
the injected random draw, because `np.random.rand()` can return exactly `0`,
which fails the strict test `u > 0` and falls through to the random branch.
Concretely, with average rewards `[0, 1]` the draw `u = 0` (random arm `0`)
yields arm `0` while the draw `u = 1/2` yields the argmax arm `1`. -/
theorem eg_epsilon_zero_counterexample :
    egPullArm 0 [0, 1] 0 0 = 0 ∧ egPullArm 0 [0, 1] (1/2) 0 = 1 ∧
      egPullArm 0 [0, 1] 0 0 ≠ egPullArm 0 [0, 1] (1/2) 0 := by
  have h1 : egPullArm 0 [0, 1] 0 0 = 0 := by
    unfold egPullArm
    rw [if_neg (by norm_num)]
  have h2 : egPullArm 0 [0, 1] (1/2) 0 = 1 := by
    unfold egPullArm
    rw [if_pos (by norm_num)]
    decide
  exact ⟨h1, h2, by rw [h1, h2]; omega⟩

/-- Claim C3, amended: for `epsilon = 0`, every call with a strictly positive
uniform draw `u` returns the argmax (first index attaining the maximum) of
`average_reward`, independently of the injected random arm; only the
measure-zero draw `u = 0` consults the random-arm branch. -/
theorem eg_epsilon_zero_greedy (averageReward : List ℚ) (u : ℚ) (randArm : ℕ)
    (hu : 0 < u) :
    egPullArm 0 averageReward u randArm = argmaxQ averageReward ∧
      (averageReward ≠ [] →
        IsFirstMax averageReward (egPullArm 0 averageReward u randArm)) := by
  have hsel : egPullArm 0 averageReward u randArm = argmaxQ averageReward := by
    unfold egPullArm
    rw [if_pos hu]
  exact ⟨hsel, fun hne => hsel ▸ argmaxQ_isFirstMax averageReward hne⟩

/-- Witness for the amended C3 at a concrete input. -/
theorem eg_epsilon_zero_greedy_witness :
    egPullArm 0 [1, 3, 2] (1/2) 7 = argmaxQ [1, 3, 2] ∧
      IsFirstMax [1, 3, 2] (egPullArm 0 [1, 3, 2] (1/2) 7) := by
  have h := eg_epsilon_zero_greedy [1, 3, 2] (1/2) 7 (by norm_num)
  exact ⟨h.1, h.2 (by decide)⟩

/-! ## Epsilon decay (`EpsilonGreedyBandit._update_arm`, lines 163-166)

After each decision cycle the code recomputes
`epsilon = starting_epsilon * np.exp(-n_iter * epsilon_decay)` when
`epsilon_decay` is truthy (`None` and `0` are falsy and leave `epsilon`
unchanged). `np.exp` is modelled as an opaque function parameter `expF`;
the claim theorem instantiates it with `Real.exp`. -/

/-- One `_update_arm` step of the epsilon-greedy policy, acting on the current
epsilon given the post-increment iteration counter. -/
def egEpsilonUpdate {K : Type} [LinearOrderedField K] (expF : K → K)
    (startEps : K) (decay : Option K) (eps : K) (nIter : ℕ) : K :=
  match decay with
  | none => eps
  | some d => if d = 0 then eps else startEps * expF (-(nIter : K) * d)

/-- The epsilon value after `n` full decision cycles (cycle `k` runs
`_update_arm` with `n_iter = k`). -/
def egEpsilonSeq {K : Type} [LinearOrderedField K] (expF : K → K)
    (startEps : K) (decay : Option K) : ℕ → K
  | 0 => startEps
  | n + 1 => egEpsilonUpdate expF startEps decay
      (egEpsilonSeq expF startEps decay n) (n + 1)

/-- Claim C9: with a configured decay `d ≥ 0` and an exploration probability
`startEps ≥ 0`, after each cycle's `on_update` the exploration probability
equals `startEps * exp (-d * total_iterations)`, and the sequence of epsilon
values is monotonically non-increasing in `total_iterations`. -/
theorem eg_epsilon_decay_formula (startEps d : ℝ) (h0 : 0 ≤ startEps)
    (hd : 0 ≤ d) :
    (∀ n : ℕ, egEpsilonSeq Real.exp startEps (some d) n
        = startEps * Real.exp (-(d * n))) ∧
    (∀ m n : ℕ, m ≤ n → egEpsilonSeq Real.exp startEps (some d) n
        ≤ egEpsilonSeq Real.exp startEps (some d) m) := by
  have hform : ∀ n : ℕ, egEpsilonSeq Real.exp startEps (some d) n
      = startEps * Real.exp (-(d * n)) := by
    intro n
    induction n with
    | zero => simp [egEpsilonSeq]
    | succ k ih =>
        by_cases hzero : d = 0
        · subst hzero
          simp only [egEpsilonSeq, egEpsilonUpdate, if_pos rfl, ih]
          norm_num
        · simp only [egEpsilonSeq, egEpsilonUpdate, if_neg hzero]
          congr 1
          push_cast
          ring_nf
  refine ⟨hform, fun m n hmn => ?_⟩
  rw [hform m, hform n]
  have hcast : (m : ℝ) ≤ (n : ℝ) := by exact_mod_cast hmn
  have hmul : d * m ≤ d * n := mul_le_mul_of_nonneg_left hcast hd
  exact mul_le_mul_of_nonneg_left (Real.exp_le_exp.2 (by linarith)) h0

/-- Witness for C9 at a concrete input. -/
theorem eg_epsilon_decay_formula_witness :
    egEpsilonSeq Real.exp 1 (some 0) 2 = 1 * Real.exp (-(0 * ((2 : ℕ) : ℝ))) ∧
      egEpsilonSeq Real.exp 1 (some 0) 3 ≤ egEpsilonSeq Real.exp 1 (some 0) 2 := by
  have h := eg_epsilon_decay_formula 1 0 (by norm_num) (le_refl 0)
  exact ⟨h.1 2, h.2 2 3 (by norm_num)⟩

/-! ## UCB arm selection (`UCBBandit._pull_arm`, lines 221-234)

The code first collects the arms with `_N <= explore_each_arm`; if any exist
it returns `np.random.choice` over them (modelled as an injected index used
modulo the candidate count). Otherwise it computes
`sqrt(2 * log(X) / _N)` per arm, with `X = 1/delta` when `self.delta` is
truthy and `X = n_iter` otherwise, and returns `np.argmax` of
`_average_reward + bonus`. `np.sqrt` and `np.log` are opaque parameters. -/

/-- The arms pulled at most `explore_each_arm` times
(`not_pulled_enough` / `np.where`, lines 222-224). -/
def ucbNotPulledEnough (exploreEachArm : ℕ) (N : List ℕ) : List ℕ :=
  (List.range N.length).filter fun i => decide (N.getD i 0 ≤ exploreEachArm)

/-- The argument of `np.log` in the exploration bonus: `1/delta` when
`self.delta` is truthy (Python: not `None` and nonzero), else `n_iter`. -/
def ucbX (delta : Option ℚ) (nIter : ℕ) : ℚ :=
  match delta with
  | some d => if d ≠ 0 then 1 / d else (nIter : ℚ)
  | none => (nIter : ℚ)

/-- The per-arm scores `_average_reward + sqrt(2 * log(X) / _N)`
(lines 228-231), for a given log argument `X`. -/
def ucbUpperBound (sqrtF logF : ℚ → ℚ) (X : ℚ) (N : List ℕ)
    (averageReward : List ℚ) : List ℚ :=
  (List.range N.length).map fun i =>
    averageReward.getD i 0 + sqrtF (2 * logF X / ((N.getD i 0 : ℕ) : ℚ))

/-- `UCBBandit._pull_arm`: forced exploration over under-pulled arms when any
exist, otherwise argmax of the upper bounds. -/
def ucbPullArm (sqrtF logF : ℚ → ℚ) (delta : Option ℚ) (exploreEachArm : ℕ)
    (N : List ℕ) (averageReward : List ℚ) (nIter : ℕ) (rnd : ℕ) : ℕ :=
  if (ucbNotPulledEnough exploreEachArm N).length ≠ 0 then
    (ucbNotPulledEnough exploreEachArm N).getD
      (rnd % (ucbNotPulledEnough exploreEachArm N).length) 0
  else
    argmaxQ (ucbUpperBound sqrtF logF (ucbX delta nIter) N averageReward)

lemma mem_ucbNotPulledEnough {exploreEachArm : ℕ} {N : List ℕ} {i : ℕ} :
    i ∈ ucbNotPulledEnough exploreEachArm N ↔
      i < N.length ∧ N.getD i 0 ≤ exploreEachArm := by
  simp [ucbNotPulledEnough, List.mem_filter, List.mem_range]

/-- Claim C4: whenever at least one arm has `pull_count <= explore_each_arm`,
`_pull_arm` returns an arm from exactly that under-pulled set (the uniform
random pick among them is modelled as an arbitrary injected index); only when
every arm has `pull_count > explore_each_arm` does it return the first-index
argmax of `average_reward + sqrt(2 * ln X / pull_count)` with `X = 1/delta`
when `delta` is configured and `X = total_iterations` otherwise. The
hypothesis on `delta` is the constructor invariant `delta ∈ (0,1)` for a
configured `delta`. -/
theorem ucb_pull_arm_spec (sqrtF logF : ℚ → ℚ) (delta : Option ℚ)
    (exploreEachArm : ℕ) (N : List ℕ) (averageReward : List ℚ) (nIter rnd : ℕ)
    (hdelta : ∀ d, delta = some d → 0 < d ∧ d < 1) :
    ((∃ i, i < N.length ∧ N.getD i 0 ≤ exploreEachArm) →
      ucbPullArm sqrtF logF delta exploreEachArm N averageReward nIter rnd < N.length ∧
      N.getD (ucbPullArm sqrtF logF delta exploreEachArm N averageReward nIter rnd) 0
        ≤ exploreEachArm) ∧
    ((∀ i, i < N.length → exploreEachArm < N.getD i 0) →
      (delta = none →
        ucbPullArm sqrtF logF delta exploreEachArm N averageReward nIter rnd
          = argmaxQ (ucbUpperBound sqrtF logF (nIter : ℚ) N averageReward)) ∧
      (∀ d, delta = some d →
        ucbPullArm sqrtF logF delta exploreEachArm N averageReward nIter rnd
          = argmaxQ (ucbUpperBound sqrtF logF (1 / d) N averageReward)) ∧
      (N ≠ [] →
        IsFirstMax (ucbUpperBound sqrtF logF (ucbX delta nIter) N averageReward)
          (ucbPullArm sqrtF logF delta exploreEachArm N averageReward nIter rnd))) := by
  constructor
  · rintro ⟨i, hi, hle⟩
    have hmem : i ∈ ucbNotPulledEnough exploreEachArm N :=
      mem_ucbNotPulledEnough.2 ⟨hi, hle⟩
    have hne : (ucbNotPulledEnough exploreEachArm N).length ≠ 0 := by
      intro h0
      rw [List.length_eq_zero] at h0
      rw [h0] at hmem
      exact absurd hmem (List.not_mem_nil i)
    have hpos : 0 < (ucbNotPulledEnough exploreEachArm N).length :=
      Nat.pos_of_ne_zero hne
    have hidx : rnd % (ucbNotPulledEnough exploreEachArm N).length
        < (ucbNotPulledEnough exploreEachArm N).length := Nat.mod_lt _ hpos
    have hres : ucbPullArm sqrtF logF delta exploreEachArm N averageReward nIter rnd
        = (ucbNotPulledEnough exploreEachArm N).getD
            (rnd % (ucbNotPulledEnough exploreEachArm N).length) 0 := by
      rw [ucbPullArm, if_pos hne]
    have hmemres : (ucbNotPulledEnough exploreEachArm N).getD
        (rnd % (ucbNotPulledEnough exploreEachArm N).length) 0
          ∈ ucbNotPulledEnough exploreEachArm N := by
      rw [List.getD_eq_getElem _ _ hidx]
      exact List.getElem_mem hidx
    rw [hres]
    exact mem_ucbNotPulledEnough.1 hmemres
  · intro hall
    have hnil : ucbNotPulledEnough exploreEachArm N = [] := by
      rw [List.eq_nil_iff_forall_not_mem]
      intro i hmem
      obtain ⟨hi, hle⟩ := mem_ucbNotPulledEnough.1 hmem
      exact absurd hle (not_le.2 (hall i hi))
    have hlen : (ucbNotPulledEnough exploreEachArm N).length = 0 := by
      rw [hnil]; rfl
    have hres : ucbPullArm sqrtF logF delta exploreEachArm N averageReward nIter rnd
        = argmaxQ (ucbUpperBound sqrtF logF (ucbX delta nIter) N averageReward) := by
      rw [ucbPullArm, if_neg (by simp [hlen])]
    refine ⟨?_, ?_, ?_⟩
    · intro hnone
      subst hnone
      rw [hres]
      rfl
    · intro d hd
      subst hd
      have hd0 : d ≠ 0 := (hdelta d rfl).1.ne'
      rw [hres]
      have : ucbX (some d) nIter = 1 / d := by simp [ucbX, hd0]
      rw [this]
    · intro hN
      rw [hres]
      apply argmaxQ_isFirstMax
      have hlN : N.length ≠ 0 := fun h => hN (List.length_eq_zero.1 h)
      intro habs
      apply hlN
      have := congrArg List.length habs
      simpa [ucbUpperBound] using this

/-- Witness for C4 at a concrete input: with `explore_each_arm = 1` and pull
counts `[0, 5]`, arm `0` is under-pulled and is the arm returned. -/
theorem ucb_pull_arm_spec_witness :
    ucbPullArm id id none 1 [0, 5] [0, 0] 3 0 < 2 ∧
      [0, 5].getD (ucbPullArm id id none 1 [0, 5] [0, 0] 3 0) 0 ≤ 1 := by
  have h := (ucb_pull_arm_spec id id none 1 [0, 5] [0, 0] 3 0
    (fun d h => Option.noConfusion h)).1 ⟨0, by norm_num, by norm_num⟩
  simpa using h

/-! ## Coordinator state (`Bandit.__init__`, lines 21-50)

`BanditState` carries the fields the bandit mutates: the model list,
`_n_arms`, `_n_iter`, `_N`, `_average_reward`, plus opaque states for the
external metric and reward-scaler collaborators. -/

structure BanditState (Model MetricState ScalerState : Type) where
  models : List Model
  nArms : ℕ
  nIter : ℕ
  N : List ℕ
  averageReward : List ℚ
  metricState : MetricState
  scalerState : ScalerState
deriving DecidableEq, Repr

/-- `Bandit.__init__` (lines 22-50): raises `ValueError` unless more than one
model is supplied (line 25) or if the metric does not work with some model
(lines 29-32); otherwise zero-initialises `_n_iter`, `_N` and
`_average_reward`. The metric's `works_with` capability and the initial
collaborator states are parameters. -/
def banditInit {Model MetricState ScalerState : Type}
    (models : List Model) (worksWith : Model → Bool)
    (metric0 : MetricState) (scaler0 : ScalerState) :
    Except PyError (BanditState Model MetricState ScalerState) :=
  if models.length ≤ 1 then .error .valueError
  else if models.all worksWith then
    .ok { models := models
          nArms := models.length
          nIter := 0
          N := List.replicate models.length 0
          averageReward := List.replicate models.length 0
          metricState := metric0
          scalerState := scaler0 }
  else .error .valueError

/-- The argument passed to `add_models`: a Python list of models, or a value
of any other type. -/
inductive AddModelsArg (Model : Type) where
  | list (newModels : List Model)
  | notAList
deriving DecidableEq, Repr

/-- `Bandit.add_models` (lines 113-124): `TypeError` unless the argument is a
list; otherwise append the models, add to `_n_arms`, and zero-extend `_N` and
`_average_reward`. No metric/model compatibility validation is performed
(the code comments: "Careful, not validation of the model is done here
(contrary to __init__)"). -/
def addModels {Model MetricState ScalerState : Type}
    (st : BanditState Model MetricState ScalerState)
    (arg : AddModelsArg Model) :
    Except PyError (BanditState Model MetricState ScalerState) :=
  match arg with
  | .notAList => .error .typeError
  | .list newModels =>
      .ok { st with
            models := st.models ++ newModels
            nArms := st.nArms + newModels.length
            N := st.N ++ List.replicate newModels.length 0
            averageReward := st.averageReward ++ List.replicate newModels.length 0 }

/-- `Bandit.predict_one` (lines 78-81): select an arm, delegate the prediction
to that arm's model, return the prediction. The method assigns to no field, so
the state is returned as-is. Arm selection (`_pull_arm`) and the models'
prediction capability are parameters. -/
def predictOne {Model MetricState ScalerState X P : Type}
    (st : BanditState Model MetricState ScalerState)
    (pullArm : BanditState Model MetricState ScalerState → ℕ)
    (predFn : Model → X → P) (defaultModel : Model) (x : X) :
    P × BanditState Model MetricState ScalerState :=
  (predFn (st.models.getD (pullArm st) defaultModel) x, st)

/-- The state mutation of one full `learn_one` decision cycle (lines 83-111)
on the coordinator state: the metric is updated (line 88), the reward scaler
learns the new sample inside `_compute_scaled_reward` (line 132), `_n_iter`
is incremented, the chosen arm's pull count is incremented, and its running
average absorbs the reward (lines 93-96). The chosen arm, the scaled reward
and the opaque collaborator updates are injected. -/
def learnOneState {Model MetricState ScalerState : Type}
    (st : BanditState Model MetricState ScalerState) (chosenArm : ℕ) (reward : ℚ)
    (metricUpd : MetricState → MetricState)
    (scalerUpd : ScalerState → ScalerState) :
    BanditState Model MetricState ScalerState :=
  { st with
    metricState := metricUpd st.metricState
    scalerState := scalerUpd st.scalerState
    nIter := st.nIter + 1
    N := st.N.set chosenArm (st.N.getD chosenArm 0 + 1)
    averageReward := st.averageReward.set chosenArm
      (st.averageReward.getD chosenArm 0
        + (1 / ((st.N.getD chosenArm 0 + 1 : ℕ) : ℚ))
          * (reward - st.averageReward.getD chosenArm 0)) }

/-- `Bandit.percentage_pulled` (lines 73-76): `_N / sum(_N)` elementwise. -/
def percentagePulled {Model MetricState ScalerState : Type}
    (st : BanditState Model MetricState ScalerState) : List ℚ :=
  st.N.map fun c => (c : ℚ) / ((st.N.sum : ℕ) : ℚ)

/-- The coordinator states reachable from construction via full decision
cycles and `add_models` calls. The chosen arm of a cycle is in range: both
`_pull_arm` implementations return a valid index, and an out-of-range index
would raise `IndexError` in the numpy updates. -/
inductive Reachable {Model MetricState ScalerState : Type} :
    BanditState Model MetricState ScalerState → Prop where
  | init (models : List Model) (worksWith : Model → Bool)
      (metric0 : MetricState) (scaler0 : ScalerState)
      (st : BanditState Model MetricState ScalerState)
      (h : banditInit models worksWith metric0 scaler0 = .ok st) : Reachable st
  | step (st : BanditState Model MetricState ScalerState) (chosenArm : ℕ)
      (harm : chosenArm < st.N.length) (reward : ℚ)
      (metricUpd : MetricState → MetricState)
      (scalerUpd : ScalerState → ScalerState) (hst : Reachable st) :
      Reachable (learnOneState st chosenArm reward metricUpd scalerUpd)
  | addArms (st : BanditState Model MetricState ScalerState)
      (newModels : List Model)
      (st' : BanditState Model MetricState ScalerState) (hst : Reachable st)
      (h : addModels st (.list newModels) = .ok st') : Reachable st'

lemma sum_set_getD_succ (l : List ℕ) :
    ∀ i, i < l.length → (l.set i (l.getD i 0 + 1)).sum = l.sum + 1 := by
  induction l with
  | nil => intro i hi; simp at hi
  | cons a t ih =>
      intro i hi
      cases i with
      | zero =>
          simp only [List.getD_cons_zero, List.set_cons_zero, List.sum_cons]
          omega
      | succ k =>
          simp only [List.getD_cons_succ, List.set_cons_succ, List.sum_cons]
          have hk := ih k (by simpa using hi)
          omega

lemma getD_replicate_self {α : Type} (z : α) :
    ∀ (k i : ℕ), (List.replicate k z).getD i z = z := by
  intro k
  induction k with
  | zero => intro i; simp
  | succ m ih =>
      intro i
      cases i with
      | zero => simp [List.replicate]
      | succ j =>
          simp only [List.replicate, List.getD_cons_succ]
          exact ih j

lemma getD_append_replicate {α : Type} (z : α) :
    ∀ (l : List α) (k i : ℕ), (l ++ List.replicate k z).getD i z = l.getD i z := by
  intro l
  induction l with
  | nil =>
      intro k i
      simp only [List.nil_append]
      rw [getD_replicate_self z k i]
      simp
  | cons a t ih =>
      intro k i
      cases i with
      | zero => simp
      | succ j =>
          simp only [List.cons_append, List.getD_cons_succ]
          exact ih k j

/-! ## Claim C5: `predict_one` mutates nothing -/

/-- Claim C5: for every input, `predict_one` performs arm selection and
delegates the prediction to the selected arm's model without mutating any
bandit statistics: the pull counts, the average rewards, `_n_iter`, the metric
state and the reward-scaler state are all unchanged (indeed the whole state
is), and the returned value is the chosen arm's model's prediction on the
input. -/
theorem predict_one_no_mutation {Model MetricState ScalerState X P : Type}
    (st : BanditState Model MetricState ScalerState)
    (pullArm : BanditState Model MetricState ScalerState → ℕ)
    (predFn : Model → X → P) (defaultModel : Model) (x : X) :
    (predictOne st pullArm predFn defaultModel x).2.N = st.N ∧
    (predictOne st pullArm predFn defaultModel x).2.averageReward
      = st.averageReward ∧
    (predictOne st pullArm predFn defaultModel x).2.nIter = st.nIter ∧
    (predictOne st pullArm predFn defaultModel x).2.metricState
      = st.metricState ∧
    (predictOne st pullArm predFn defaultModel x).2.scalerState
      = st.scalerState ∧
    (predictOne st pullArm predFn defaultModel x).2 = st ∧
    (predictOne st pullArm predFn defaultModel x).1
      = predFn (st.models.getD (pullArm st) defaultModel) x :=
  ⟨rfl, rfl, rfl, rfl, rfl, rfl, rfl⟩

/-! ## Claim C6: `add_models` appends zero-initialised arms -/

/-- Claim C6: for every coordinator state and list of `k` new models,
`add_models` increases `n_arms` by `k` and appends `k` zero-initialised
statistics entries, leaving `_n_iter` and every pre-existing entry (looked up
at its old index) unchanged; a non-list argument fails with the configuration
error (the code's `TypeError`). -/
theorem add_models_spec {Model MetricState ScalerState : Type}
    (st : BanditState Model MetricState ScalerState) (newModels : List Model) :
    (∃ st', addModels st (.list newModels) = .ok st' ∧
      st'.nArms = st.nArms + newModels.length ∧
      st'.nIter = st.nIter ∧
      st'.models = st.models ++ newModels ∧
      st'.N = st.N ++ List.replicate newModels.length 0 ∧
      st'.averageReward
        = st.averageReward ++ List.replicate newModels.length 0 ∧
      (∀ i, st'.N.getD i 0 = st.N.getD i 0) ∧
      (∀ i, st'.averageReward.getD i 0 = st.averageReward.getD i 0) ∧
      (∀ i, st'.N.getD (st.N.length + i) 0 = 0) ∧
      (∀ i, st'.averageReward.getD (st.averageReward.length + i) 0 = 0)) ∧
    addModels st .notAList
      = (.error .typeError :
          Except PyError (BanditState Model MetricState ScalerState)) := by
  refine ⟨⟨_, rfl, rfl, rfl, rfl, rfl, rfl, ?_, ?_, ?_, ?_⟩, rfl⟩
  · intro i
    exact getD_append_replicate 0 st.N newModels.length i
  · intro i
    exact getD_append_replicate 0 st.averageReward newModels.length i
  · intro i
    rw [List.getD_eq_getElem?_getD, List.getElem?_append_right (Nat.le_add_right _ _)]
    simp only [List.getElem?_replicate]
    split <;> rfl
  · intro i
    rw [List.getD_eq_getElem?_getD, List.getElem?_append_right (Nat.le_add_right _ _)]
    simp only [List.getElem?_replicate]
    split <;> rfl

/-! ## Claim C7: `add_models` performs no compatibility validation -/

/-- Claim C7 is false on the code: `add_models` raises no error for models
incompatible with the configured metric. Concretely, with models of type
`Bool` and the metric capability `works_with = id` (a model is compatible iff
it is `true`), construction with the incompatible model `false` fails with
the configuration error, yet `add_models` on the constructed two-arm bandit
accepts the very same incompatible model. -/
theorem add_models_no_validation_counterexample :
    banditInit [true, false] (fun b => b) () ()
      = (.error .valueError : Except PyError (BanditState Bool Unit Unit)) ∧
    banditInit [true, true] (fun b => b) () ()
      = (.ok ⟨[true, true], 2, 0, [0, 0], [0, 0], (), ()⟩ :
          Except PyError (BanditState Bool Unit Unit)) ∧
    addModels (⟨[true, true], 2, 0, [0, 0], [0, 0], (), ()⟩ :
        BanditState Bool Unit Unit) (.list [false])
      = .ok ⟨[true, true, false], 3, 0, [0, 0, 0], [0, 0, 0], (), ()⟩ := by
  refine ⟨rfl, rfl, rfl⟩

/-- Claim C7, amended: `add_models` validates only the shape of its argument
(`TypeError` on a non-list); any list of models is accepted without the
metric-compatibility check performed at construction, so incompatible models
are added silently. -/
theorem add_models_accepts_any_list {Model MetricState ScalerState : Type}
    (st : BanditState Model MetricState ScalerState) (newModels : List Model) :
    (∃ st', addModels st (.list newModels) = .ok st') ∧
    addModels st .notAList
      = (.error .typeError :
          Except PyError (BanditState Model MetricState ScalerState)) :=
  ⟨⟨_, rfl⟩, rfl⟩

/-! ## Claim C8: UCB delta validation (`UCBBandit.__init__`, lines 211-219) -/

/-- `UCBBandit.__init__`: run the base constructor first (line 212), then
raise `ValueError` when `delta` is not `None` and outside the open interval
`(0, 1)` (lines 213-214). Returns the base state together with the stored
`delta` and `explore_each_arm`. -/
def ucbInit {Model MetricState ScalerState : Type}
    (models : List Model) (worksWith : Model → Bool)
    (metric0 : MetricState) (scaler0 : ScalerState)
    (delta : Option ℚ) (exploreEachArm : ℕ) :
    Except PyError (BanditState Model MetricState ScalerState × Option ℚ × ℕ) :=
  match banditInit models worksWith metric0 scaler0 with
  | .error e => .error e
  | .ok base =>
      match delta with
      | some d =>
          if 1 ≤ d ∨ d ≤ 0 then .error .valueError
          else .ok (base, some d, exploreEachArm)
      | none => .ok (base, none, exploreEachArm)

/-- Claim C8: with a valid base configuration (at least two models, all
compatible with the metric), constructing a UCB policy with `delta` outside
the open interval `(0, 1)` fails with the configuration error, while
`delta = None` (UCB1) and any `delta` strictly between `0` and `1` succeed. -/
theorem ucb_init_delta_validation {Model MetricState ScalerState : Type}
    (models : List Model) (worksWith : Model → Bool)
    (metric0 : MetricState) (scaler0 : ScalerState) (exploreEachArm : ℕ)
    (hlen : 2 ≤ models.length) (hcompat : models.all worksWith = true) :
    (∀ d : ℚ, 1 ≤ d ∨ d ≤ 0 →
      ucbInit models worksWith metric0 scaler0 (some d) exploreEachArm
        = .error .valueError) ∧
    (∃ r, ucbInit models worksWith metric0 scaler0 none exploreEachArm
        = .ok r) ∧
    (∀ d : ℚ, 0 < d → d < 1 →
      ∃ r, ucbInit models worksWith metric0 scaler0 (some d) exploreEachArm
        = .ok r) := by
  have hbase : banditInit models worksWith metric0 scaler0
      = .ok { models := models
              nArms := models.length
              nIter := 0
              N := List.replicate models.length 0
              averageReward := List.replicate models.length 0
              metricState := metric0
              scalerState := scaler0 } := by
    rw [banditInit, if_neg (by omega), if_pos hcompat]
  refine ⟨?_, ?_, ?_⟩
  · intro d hd
    rw [ucbInit, hbase]
    simp only [if_pos hd]
  · rw [ucbInit, hbase]
    exact ⟨_, rfl⟩
  · intro d hd0 hd1
    rw [ucbInit, hbase]
    simp only [if_neg (by push_neg; exact ⟨hd1, hd0⟩ :
      ¬(1 ≤ d ∨ d ≤ 0))]
    exact ⟨_, rfl⟩

/-- Witness for C8 at concrete inputs: two trivially compatible models;
`delta = 3/2` and `delta = 0` fail, `delta = None` and `delta = 1/2` succeed. -/
theorem ucb_init_delta_validation_witness :
    ucbInit [(), ()] (fun _ => true) () () (some (3/2)) 1
      = (.error .valueError :
          Except PyError (BanditState Unit Unit Unit × Option ℚ × ℕ)) ∧
    ucbInit [(), ()] (fun _ => true) () () (some 0) 1
      = (.error .valueError :
          Except PyError (BanditState Unit Unit Unit × Option ℚ × ℕ)) ∧
    (∃ r, ucbInit [(), ()] (fun _ => true) () () none 1 = .ok r) ∧
    (∃ r, ucbInit [(), ()] (fun _ => true) () () (some (1/2)) 1 = .ok r) := by
  have h := ucb_init_delta_validation [(), ()] (fun _ => true) () () 1
    (by norm_num) rfl
  exact ⟨h.1 (3/2) (Or.inl (by norm_num)), h.1 0 (Or.inr le_rfl),
    h.2.1, h.2.2 (1/2) (by norm_num) (by norm_num)⟩

/-! ## Claim C10: the pull counts always sum to the iteration counter -/

/-- Claim C10: every reachable coordinator state (construction, any number of
full decision cycles, `add_models` calls) satisfies `sum(_N) = _n_iter`:
construction and `add_models` zero-initialise new counts, and each cycle
increments `_n_iter` and exactly one arm's pull count by one. Consequently
the denominator `sum(_N)` used by `percentage_pulled` equals
`total_iterations`. -/
theorem pull_counts_sum_eq_iterations {Model MetricState ScalerState : Type}
    (st : BanditState Model MetricState ScalerState) (h : Reachable st) :
    st.N.sum = st.nIter ∧
      percentagePulled st = st.N.map fun c => (c : ℚ) / ((st.nIter : ℕ) : ℚ) := by
  have hsum : st.N.sum = st.nIter := by
    induction h with
    | init models worksWith metric0 scaler0 st0 h0 =>
        rw [banditInit] at h0
        split at h0
        · exact Except.noConfusion h0
        · split at h0
          · injection h0 with heq
            subst heq
            simp
          · exact Except.noConfusion h0
    | step st0 chosenArm harm reward metricUpd scalerUpd hst ih =>
        show (st0.N.set chosenArm (st0.N.getD chosenArm 0 + 1)).sum
          = st0.nIter + 1
        rw [sum_set_getD_succ st0.N chosenArm harm, ih]
    | addArms st0 newModels st1 hst h1 ih =>
        simp only [addModels] at h1
        injection h1 with heq
        subst heq
        show (st0.N ++ List.replicate newModels.length 0).sum = st0.nIter
        rw [List.sum_append, ← ih]
        simp
  exact ⟨hsum, by rw [percentagePulled, hsum]⟩

/-- Witness for C10: a two-arm bandit after construction and one decision
cycle on arm `0`. -/
theorem pull_counts_sum_eq_iterations_witness :
    (learnOneState (⟨[(), ()], 2, 0, [0, 0], [0, 0], (), ()⟩ :
        BanditState Unit Unit Unit) 0 1 id id).N.sum
      = (learnOneState (⟨[(), ()], 2, 0, [0, 0], [0, 0], (), ()⟩ :
          BanditState Unit Unit Unit) 0 1 id id).nIter := by
  have hinit : banditInit [(), ()] (fun _ => true) () ()
      = (.ok ⟨[(), ()], 2, 0, [0, 0], [0, 0], (), ()⟩ :
          Except PyError (BanditState Unit Unit Unit)) := rfl
  have hreach := Reachable.step _ 0 (by norm_num) 1 id id
    (Reachable.init [(), ()] (fun _ => true) () () _ hinit)
  exact (pull_counts_sum_eq_iterations _ hreach).1

/-! ## Claim C2: ordering of one `learn_one` cycle (lines 83-111)

The statement order of `learn_one` is modelled as an event trace:
`_pull_arm` (84), `chosen_model.predict_one` (87), `metric.update` (88),
`chosen_model.learn_one` (89), then inside `_compute_scaled_reward` (92):
`metric._eval` (127), `reward_scaler.learn_one` (132),
`reward_scaler.transform_one` (133); then `_n_iter += 1` (93),
`_N[arm] += 1` (94), the average-reward update (95), `_update_arm` (99), and
the optional printing (101-103) and history appends (105-109). -/

inductive CycleEvent where
  | pullArm
  | modelPredict
  | metricUpdate
  | modelLearn
  | metricEval
  | scalerLearn
  | scalerTransform
  | iterIncrement
  | pullCountIncrement
  | avgRewardUpdate
  | policyOnUpdate
  | printInfo
  | savePercentagePulled
  | saveMetricValue
deriving DecidableEq, Repr

/-- The event trace of one `learn_one` call, in the order the statements
execute. `printEvery` is the `print_every` setting (`None` and `0` are falsy),
`nIterAfter` the incremented `_n_iter` tested by the modulo, `savePct` and
`saveMetric` the two history flags. -/
def learnOneTrace (printEvery : Option ℕ) (nIterAfter : ℕ)
    (savePct saveMetric : Bool) : List CycleEvent :=
  [.pullArm, .modelPredict, .metricUpdate, .modelLearn, .metricEval,
   .scalerLearn, .scalerTransform, .iterIncrement, .pullCountIncrement,
   .avgRewardUpdate, .policyOnUpdate]
  ++ (match printEvery with
      | some p => if p ≠ 0 ∧ nIterAfter % p = 0 then [.printInfo] else []
      | none => [])
  ++ (if savePct then [.savePercentagePulled] else [])
  ++ (if saveMetric then [.saveMetricValue] else [])

/-- Position of the first occurrence of an event in a trace (length of the
trace when absent). -/
def eventPos (e : CycleEvent) : List CycleEvent → ℕ
  | [] => 0
  | a :: l => if a = e then 0 else eventPos e l + 1

/-- Claim C2 is false as stated: in the code the chosen model is trained
(line 89) before `_n_iter` is incremented, before the chosen arm's statistics
are updated and before `_update_arm` runs (lines 93-99), not after. At the
concrete configuration with printing and history recording disabled, the
model-training event sits at position 3 of the cycle trace, before the
statistics events at positions 7-10. -/
theorem learn_one_order_counterexample :
    eventPos .modelLearn (learnOneTrace none 1 false false) = 3 ∧
    eventPos .iterIncrement (learnOneTrace none 1 false false) = 7 ∧
    eventPos .pullCountIncrement (learnOneTrace none 1 false false) = 8 ∧
    eventPos .avgRewardUpdate (learnOneTrace none 1 false false) = 9 ∧
    eventPos .policyOnUpdate (learnOneTrace none 1 false false) = 10 ∧
    eventPos .modelLearn (learnOneTrace none 1 false false)
      < eventPos .iterIncrement (learnOneTrace none 1 false false) := by
  refine ⟨?_, ?_, ?_, ?_, ?_, ?_⟩ <;> decide

/-- Claim C2, amended: in every full decision cycle, whatever the printing and
history configuration, the chosen model is trained immediately after the
metric update and before the reward is computed; in particular model training
precedes the `total_iterations` increment, the chosen arm's statistics
updates, and the policy's `on_update`. -/
theorem learn_one_trains_before_stats (printEvery : Option ℕ)
    (nIterAfter : ℕ) (savePct saveMetric : Bool) :
    eventPos .metricUpdate (learnOneTrace printEvery nIterAfter savePct saveMetric)
        = 2 ∧
    eventPos .modelLearn (learnOneTrace printEvery nIterAfter savePct saveMetric)
        = 3 ∧
    eventPos .iterIncrement (learnOneTrace printEvery nIterAfter savePct saveMetric)
        = 7 ∧
    eventPos .pullCountIncrement
        (learnOneTrace printEvery nIterAfter savePct saveMetric) = 8 ∧
    eventPos .avgRewardUpdate
        (learnOneTrace printEvery nIterAfter savePct saveMetric) = 9 ∧
    eventPos .policyOnUpdate
        (learnOneTrace printEvery nIterAfter savePct saveMetric) = 10 := by
  refine ⟨?_, ?_, ?_, ?_, ?_, ?_⟩ <;>
    simp [learnOneTrace, eventPos]
